import Mathlib

/-!
Shallow embedding of the weather-chart marker detection-and-association
pipeline (`x_spotter.py`, `LH_spotter.py`, `connector.py`, `main_spotter.py`).

Modelling conventions, used consistently below:
* Pixel coordinates and bounding boxes are integers (`ℤ`), exactly as in the
  source, where they come from OpenCV/`int(...)` conversions.
* The source compares Euclidean distances (`math.sqrt(dx*dx+dy*dy)`) against
  integer cutoffs `d`; since `sqrt` is monotone and exact at perfect squares,
  `dist ≤ d` holds iff `dx*dx+dy*dy ≤ d*d`, so distances are embedded as
  squared distances (`sqDist`) compared against squared cutoffs.  Ties under
  a distance sort are exactly ties of the squared distance, so stable sorting
  by the squared key reproduces the source's stable sort by distance.
* OCR confidences are embedded as rationals (`ℚ`); the thresholds 0.3, 0.1,
  0.5 of the source become the rationals `mkRat 3 10`, `mkRat 1 10`,
  `mkRat 1 2` (`mkRat n d` is the rational n/d; the `mkRat` spelling keeps
  the terms kernel-computable).
* Python's `int(x)` on a quotient truncates toward zero: embedded as
  `Int.tdiv`.
* Python's `sorted(..., key=...)` is a stable sort; a stable sort by a key is
  extensionally unique, so the insertion sort `stableSortK` below (which
  keeps an element before later elements of equal key) computes the same
  list.
-/

namespace WX

/-! ### Generic stable sort by key (models Python `sorted(xs, key=...)`) -/

def insertK {α β : Type} [LinearOrder β] (key : α → β) (a : α) : List α → List α
  | [] => [a]
  | b :: bs => if key a ≤ key b then a :: b :: bs else b :: insertK key a bs

def stableSortK {α β : Type} [LinearOrder β] (key : α → β) : List α → List α
  | [] => []
  | a :: as => insertK key a (stableSortK key as)

theorem mem_insertK {α β : Type} [LinearOrder β] (key : α → β) (a x : α) :
    ∀ l : List α, x ∈ insertK key a l ↔ x = a ∨ x ∈ l := by
  intro l
  induction l with
  | nil => simp [insertK]
  | cons b bs ih =>
    by_cases h : key a ≤ key b
    · simp [insertK, h]
    · simp only [insertK, if_neg h, List.mem_cons, ih]
      tauto

theorem mem_stableSortK {α β : Type} [LinearOrder β] (key : α → β) (x : α) :
    ∀ l : List α, x ∈ stableSortK key l ↔ x ∈ l := by
  intro l
  induction l with
  | nil => simp [stableSortK]
  | cons a as ih => simp [stableSortK, mem_insertK, ih]

theorem pairwise_insertK {α β : Type} [LinearOrder β] (key : α → β) (a : α) :
    ∀ l : List α, l.Pairwise (fun x y => key x ≤ key y) →
      (insertK key a l).Pairwise (fun x y => key x ≤ key y) := by
  intro l
  induction l with
  | nil => simp [insertK]
  | cons b bs ih =>
    intro hp
    rcases List.pairwise_cons.mp hp with ⟨hb, hbs⟩
    by_cases h : key a ≤ key b
    · rw [insertK, if_pos h]
      refine List.pairwise_cons.mpr ⟨?_, hp⟩
      intro y hy
      rcases List.mem_cons.mp hy with rfl | hy'
      · exact h
      · exact le_trans h (hb y hy')
    · rw [insertK, if_neg h]
      refine List.pairwise_cons.mpr ⟨?_, ih hbs⟩
      intro y hy
      rcases (mem_insertK key a y bs).mp hy with rfl | hy'
      · exact le_of_not_le h
      · exact hb y hy'

theorem pairwise_stableSortK {α β : Type} [LinearOrder β] (key : α → β) :
    ∀ l : List α, (stableSortK key l).Pairwise (fun x y => key x ≤ key y) := by
  intro l
  induction l with
  | nil => simp [stableSortK]
  | cons a as ih => exact pairwise_insertK key a _ ih

theorem insertK_of_le {α β : Type} [LinearOrder β] (key : α → β) (a : α)
    (l : List α) (h : ∀ y ∈ l.head?, key a ≤ key y) : insertK key a l = a :: l := by
  cases l with
  | nil => rfl
  | cons b bs => simp [insertK, h b rfl]

/-- A list already sorted (as a chain of key inequalities) is a fixed point of
the stable sort. -/
theorem stableSortK_of_chain {α β : Type} [LinearOrder β] (key : α → β) :
    ∀ l : List α, l.Chain' (fun x y => key x ≤ key y) → stableSortK key l = l := by
  intro l
  induction l with
  | nil => intro _; rfl
  | cons a as ih =>
    intro hc
    rcases List.chain'_cons'.mp hc with ⟨hhead, htail⟩
    rw [stableSortK, ih htail, insertK_of_le key a as hhead]

/-! ### Truncating integer mean bounds (Python `int(sum/len)`) -/

theorem tdiv_le_of_le_mul {a hi : ℤ} {n : ℕ} (hn : 0 < n) (h : a ≤ (n : ℤ) * hi) :
    Int.tdiv a n ≤ hi := by
  rcases le_or_lt 0 a with ha | ha
  · rw [Int.tdiv_eq_ediv ha (by exact_mod_cast Nat.zero_le n)]
    calc a / (n : ℤ) ≤ ((n : ℤ) * hi) / n := Int.ediv_le_ediv (by exact_mod_cast hn) h
    _ = hi := Int.mul_ediv_cancel_left hi (by exact_mod_cast hn.ne')
  · have hneg : Int.tdiv a n = -Int.tdiv (-a) n := by
      rw [Int.neg_tdiv, neg_neg]
    rw [hneg]
    have h1 : ((n : ℤ) * (-hi)) / n ≤ (-a) / n :=
      Int.ediv_le_ediv (by exact_mod_cast hn) (by linarith)
    rw [Int.mul_ediv_cancel_left (-hi) (by exact_mod_cast hn.ne')] at h1
    have h2 : Int.tdiv (-a) n = (-a) / n :=
      Int.tdiv_eq_ediv (by linarith) (by exact_mod_cast Nat.zero_le n)
    omega

theorem le_tdiv_of_mul_le {a lo : ℤ} {n : ℕ} (hn : 0 < n) (h : (n : ℤ) * lo ≤ a) :
    lo ≤ Int.tdiv a n := by
  rcases le_or_lt 0 a with ha | ha
  · rw [Int.tdiv_eq_ediv ha (by exact_mod_cast Nat.zero_le n)]
    calc lo = ((n : ℤ) * lo) / n := (Int.mul_ediv_cancel_left lo (by exact_mod_cast hn.ne')).symm
    _ ≤ a / n := Int.ediv_le_ediv (by exact_mod_cast hn) h
  · have hneg : Int.tdiv a n = -Int.tdiv (-a) n := by
      rw [Int.neg_tdiv, neg_neg]
    rw [hneg]
    have h1 : (-a) / n ≤ ((n : ℤ) * (-lo)) / n :=
      Int.ediv_le_ediv (by exact_mod_cast hn) (by linarith)
    rw [Int.mul_ediv_cancel_left (-lo) (by exact_mod_cast hn.ne')] at h1
    have h2 : Int.tdiv (-a) n = (-a) / n :=
      Int.tdiv_eq_ediv (by linarith) (by exact_mod_cast Nat.zero_le n)
    omega

/-! ### Geometry primitives (`connector.py` lines 5-20) -/

/-- `MAX_X_TO_LH_DISTANCE = 100` (`connector.py` line 5). -/
def MAX_X_TO_LH_DISTANCE : ℤ := 100

/-- Squared Euclidean distance; `calculate_distance` returns its square root
(`connector.py` lines 7-8), and every use compares it with a constant, which
is equivalent to comparing `sqDist` with the constant's square. -/
def sqDist (p q : ℤ × ℤ) : ℤ := (p.1 - q.1) ^ 2 + (p.2 - q.2) ^ 2

theorem sqDist_comm (p q : ℤ × ℤ) : sqDist p q = sqDist q p := by
  unfold sqDist; ring

/-- `is_point_inside_box` for the 4-tuple case (`connector.py` lines 10-14);
the polygon branch is never reached because `get_valid_x_markers` only builds
4-tuple boxes. -/
def is_point_inside_box (p : ℤ × ℤ) (box : ℤ × ℤ × ℤ × ℤ) : Bool :=
  decide (box.1 ≤ p.1 ∧ p.1 ≤ box.2.2.1 ∧ box.2.1 ≤ p.2 ∧ p.2 ≤ box.2.2.2)

/-! ### Marker records

The source keeps markers as Python dicts; the embedding uses structures with
the fields the modelled stages read or write.  Fields that only ride along
through `dict.copy()` (debug bboxes, `associated_to`/`is_l` placeholders) are
omitted: every modelled operation copies them unchanged. -/

/-- A discontinuity ("X") candidate: `position` and the provenance `text` tag
(`x_spotter.py`). -/
structure XMarker where
  position : ℤ × ℤ
  text : String
  deriving DecidableEq, Repr

/-- A quadrilateral as its four corners, in the order the source stores
`rect_points` / `marker_rect_points` (top-left, top-right, bottom-right,
bottom-left). -/
structure Quad where
  p1 : ℤ × ℤ
  p2 : ℤ × ℤ
  p3 : ℤ × ℤ
  p4 : ℤ × ℤ
  deriving DecidableEq, Repr

/-- An L/H system marker as produced by `detect_lh_markers`
(`LH_spotter.py` lines 133-142 and 163-172). -/
structure LHMarker where
  position : ℤ × ℤ
  text : String
  value : ℕ
  prob : ℚ
  pressure_position : ℤ × ℤ
  pressure_rect_points : Quad
  marker_rect_points : Quad
  pattern_analyzed : Bool
  deriving DecidableEq, Repr

/-! ### Deduplicator (`consolidate_x_markers`, `connector.py` lines 23-83) -/

/-- `calculate_distance(p, q) <= max_distance` with the default
`max_distance = 10`, i.e. squared distance at most 100. -/
def close10 (p q : ℤ × ℤ) : Bool := decide (sqDist p q ≤ 100)

/-- Average position of a group: `int(sum(..)/len(..))` per coordinate
(`connector.py` lines 57-58 and 73-74). -/
def meanPos (g : List XMarker) : ℤ × ℤ :=
  (Int.tdiv (g.map (fun m => m.position.1)).sum g.length,
   Int.tdiv (g.map (fun m => m.position.2)).sum g.length)

/-- Collapse a group to one marker: the first member's record with the
averaged position (`connector.py` lines 61-63 and 77-79).  Groups are never
empty; the `[]` case is unreachable. -/
def flushGroup : List XMarker → List XMarker
  | [] => []
  | m :: ms => [{ m with position := meanPos (m :: ms) }]

/-- The grouping loop over the sorted tail (`connector.py` lines 43-68): a
marker joins the current group iff it is within distance 10 of some member
already in the group, otherwise the group is flushed and a new one starts. -/
def consolidateRun (cur : List XMarker) : List XMarker → List XMarker
  | [] => flushGroup cur
  | m :: ms =>
    if cur.any (fun g => close10 m.position g.position) then
      consolidateRun (cur ++ [m]) ms
    else
      flushGroup cur ++ consolidateRun [m] ms

/-- `consolidate_x_markers` (`connector.py` lines 23-83): stable-sort by the
horizontal coordinate, then group-and-collapse. -/
def consolidate_x_markers (xs : List XMarker) : List XMarker :=
  match stableSortK (fun m => m.position.1) xs with
  | [] => []
  | m :: ms => consolidateRun [m] ms

/-! ### Geometric rejection (`get_valid_x_markers`, `connector.py` 85-124) -/

/-- The axis-aligned bounding box of a quadrilateral expanded by 3 pixels on
every side (`connector.py` lines 93-108). -/
def expandedBox (q : Quad) : ℤ × ℤ × ℤ × ℤ :=
  let xs := [q.p1.1, q.p2.1, q.p3.1, q.p4.1]
  let ys := [q.p1.2, q.p2.2, q.p3.2, q.p4.2]
  (xs.foldr min (q.p1.1) - 3, ys.foldr min (q.p1.2) - 3,
   xs.foldr max (q.p1.1) + 3, ys.foldr max (q.p1.2) + 3)

/-- The box list built from every L and H marker's pressure box and search
window box, in source order (`connector.py` lines 88-108; both keys are
always present on markers produced by `detect_lh_markers`). -/
def collect_boxes (ls hs : List LHMarker) : List (ℤ × ℤ × ℤ × ℤ) :=
  (ls ++ hs).flatMap fun m =>
    [expandedBox m.pressure_rect_points, expandedBox m.marker_rect_points]

/-- `get_valid_x_markers` (`connector.py` lines 85-124): consolidate, then
keep only candidates whose center is inside no expanded box. -/
def get_valid_x_markers (xs : List XMarker) (ls hs : List LHMarker) : List XMarker :=
  let cs := consolidate_x_markers xs
  let boxes := collect_boxes ls hs
  cs.filter fun m => boxes.all fun b => !is_point_inside_box m.position b

/-! ### Association engine (`connect_x_markers_to_lh`, `connector.py` 126-181)

Python tracks object identity (`id(...)`) of the valid candidates and of the
copied target dicts; each valid candidate and each copied target is a fresh
object, so identity is exactly the index in the respective list.  The
embedding therefore carries indices (`xi` into the valid candidate list,
`ti` into the L or H updated list selected by `is_l`). -/

/-- A committed candidate record: `x_marker.copy()` plus the keys
`associated_to`, `is_l`, `distance` (`connector.py` lines 167-170; the
distance is stored squared, see the header comment). -/
structure ConnectedX where
  base : XMarker
  associated_to : ℤ × ℤ
  is_l : Bool
  distSq : ℤ
  deriving DecidableEq, Repr

/-- A copied L/H dict with the added `associated_x` and `assigned` keys
(`connector.py` lines 129-136). -/
structure UpdMarker where
  base : LHMarker
  associated_x : List ConnectedX
  assigned : Bool
  deriving DecidableEq, Repr

/-- One entry of `possible_connections`: `(x_marker, marker, dist, is_l)`
(`connector.py` line 138), with the two object references replaced by list
indices. -/
structure Conn where
  xi : ℕ
  xm : XMarker
  ti : ℕ
  is_l : Bool
  distSq : ℤ
  deriving DecidableEq, Repr

/-- Build every candidate/target pairing within the distance cutoff
(`connector.py` lines 139-154): for each valid candidate, first all L
targets, then all H targets. -/
def possible_connections (valid : List XMarker) (ls hs : List LHMarker) : List Conn :=
  valid.enum.flatMap fun xim =>
    (ls.enum.filterMap fun tim =>
      let d := sqDist xim.2.position tim.2.position
      if d ≤ MAX_X_TO_LH_DISTANCE ^ 2 then
        some ⟨xim.1, xim.2, tim.1, true, d⟩
      else none) ++
    (hs.enum.filterMap fun tim =>
      let d := sqDist xim.2.position tim.2.position
      if d ≤ MAX_X_TO_LH_DISTANCE ^ 2 then
        some ⟨xim.1, xim.2, tim.1, false, d⟩
      else none)

/-- The sorted pairing list (`possible_connections.sort(key=dist)`,
`connector.py` line 157). -/
def sorted_connections (xs : List XMarker) (ls hs : List LHMarker) : List Conn :=
  stableSortK (fun c => c.distSq)
    (possible_connections (get_valid_x_markers xs ls hs) ls hs)

/-- The mutable state of the association pass: the two copied target lists,
the committed candidate list, and `used_x_markers`. -/
structure ConnSt where
  lUpd : List UpdMarker
  hUpd : List UpdMarker
  connected : List ConnectedX
  usedX : List ℕ
  deriving DecidableEq, Repr

/-- One iteration of the commit loop (`connector.py` lines 161-175): commit
iff the candidate is unused and the target unassigned. -/
def connectStep (s : ConnSt) (c : Conn) : ConnSt :=
  match (if c.is_l then s.lUpd else s.hUpd)[c.ti]? with
  | none => s
  | some tgt =>
    if s.usedX.contains c.xi || tgt.assigned then s
    else
      let cx : ConnectedX :=
        ⟨c.xm, tgt.base.position, c.is_l, c.distSq⟩
      let tgt' : UpdMarker :=
        ⟨tgt.base, tgt.associated_x ++ [cx], true⟩
      { lUpd := if c.is_l then s.lUpd.set c.ti tgt' else s.lUpd
        hUpd := if c.is_l then s.hUpd else s.hUpd.set c.ti tgt'
        connected := s.connected ++ [cx]
        usedX := s.usedX ++ [c.xi] }

/-- Final state of the association pass over the sorted pairings. -/
def connect_state (xs : List XMarker) (ls hs : List LHMarker) : ConnSt :=
  (sorted_connections xs ls hs).foldl connectStep
    ⟨ls.map (fun m => ⟨m, [], false⟩), hs.map (fun m => ⟨m, [], false⟩), [], []⟩

/-- `connect_x_markers_to_lh` (`connector.py` lines 126-181): returns the
updated L list, updated H list and the committed candidate list. -/
def connect_x_markers_to_lh (xs : List XMarker) (ls hs : List LHMarker) :
    List UpdMarker × List UpdMarker × List ConnectedX :=
  ((connect_state xs ls hs).lUpd, (connect_state xs ls hs).hUpd,
   (connect_state xs ls hs).connected)

/-! ### Pressure locator (`detect_lh_markers` step 1, `LH_spotter.py` 44-77) -/

/-- One token returned by the full-image digit scan: the quadrilateral bbox
corners, the recognized text and the confidence. -/
structure OcrTok where
  tl : ℤ × ℤ
  tr : ℤ × ℤ
  br : ℤ × ℤ
  bl : ℤ × ℤ
  text : String
  prob : ℚ
  deriving DecidableEq, Repr

/-- `re.match(r'^\d{3,4}$', text)` on text drawn from the recognizer's
digit-only allowlist: exactly 3 or 4 digit characters. -/
def str34digits (s : String) : Bool :=
  (s.length == 3 || s.length == 4) && s.data.all Char.isDigit

/-- `int(text)` for a digit string. -/
def strVal (s : String) : ℕ :=
  s.data.foldl (fun n c => 10 * n + (c.toNat - 48)) 0

/-- A retained pressure reading (`LH_spotter.py` lines 64-71; the mutable
`assigned` flag is only ever written, never read, and is omitted). -/
structure PressureReading where
  value : ℕ
  position : ℤ × ℤ
  rect_points : Quad
  prob : ℚ
  deriving DecidableEq, Repr

/-- Processing of one digit token (`LH_spotter.py` lines 46-71): reject on
low confidence or a non-3/4-digit text, reject values outside [950, 1050],
reject centers in the masked header area, otherwise retain. -/
def locate_pressure_tok (height width : ℤ) (useMask : Bool) (t : OcrTok) :
    Option PressureReading :=
  if t.prob < mkRat 3 10 || !str34digits t.text then none
  else
    let v := strVal t.text
    if 950 ≤ v ∧ v ≤ 1050 then
      let cx := Int.tdiv (t.tl.1 + t.br.1) 2
      let cy := Int.tdiv (t.tl.2 + t.br.2) 2
      if useMask && decide (100 * cy < 11 * height) && decide (100 * cx < 38 * width) then
        none
      else some ⟨v, (cx, cy), ⟨t.tl, t.tr, t.br, t.bl⟩, t.prob⟩
    else none

/-- The retained pressure list, in scan order. -/
def locate_pressures (height width : ℤ) (useMask : Bool) (toks : List OcrTok) :
    List PressureReading :=
  toks.filterMap (locate_pressure_tok height width useMask)

/-! ### System classifier (`detect_lh_markers` step 2, `LH_spotter.py` 83-200) -/

/-- The clipped glyph search window `(x1, y1, x2, y2)` for a pressure at
`(px, py)` (`LH_spotter.py` lines 86-94): a nominal 20x20 square centered
20 px above the pressure center, clipped to `[0, width] x [0, height]`. -/
def search_window (height width px py : ℤ) : ℤ × ℤ × ℤ × ℤ :=
  (max 0 (px - 10), max 0 (py - 30), min width (px + 10), min height (py - 10))

/-- Effective numpy slice bound: a negative index counts from the end, and
bounds are clipped to `[0, n]`. -/
def sliceIdx (n i : ℤ) : ℤ := if i < 0 then max 0 (n + i) else min n i

/-- Number of elements selected by the slice `a:b` on an axis of length
`n`. -/
def sliceLen (n a b : ℤ) : ℤ := max 0 (sliceIdx n b - sliceIdx n a)

/-- `roi.size == 0` for `roi = img[y1:y2, x1:x2]` (`LH_spotter.py` lines
102-104). -/
def roi_empty (height width px py : ℤ) : Bool :=
  let w := search_window height width px py
  decide (sliceLen height w.2.1 w.2.2.2 = 0) || decide (sliceLen width w.1 w.2.2.1 = 0)

/-- One glyph token recognized inside the search window, in window-local
coordinates. -/
structure GlyphTok where
  tl : ℤ × ℤ
  br : ℤ × ℤ
  text : String
  prob : ℚ
  deriving DecidableEq, Repr

/-- Externally observed data for one pressure's search window: the
recognizer's output on the window and the foreground pixel counts of the two
binary half-windows used by the fallback heuristic. -/
structure ClassifyIn where
  ocr : List GlyphTok
  left_white : ℕ
  right_white : ℕ
  deriving DecidableEq, Repr

/-- One step of the best-result scan (`LH_spotter.py` lines 121-124):
`if prob > best_prob and text in ['L','H']`. -/
def best_glyph_step (acc : ℚ × Option GlyphTok) (t : GlyphTok) : ℚ × Option GlyphTok :=
  if t.prob > acc.1 && (t.text == "L" || t.text == "H") then (t.prob, some t)
  else acc

/-- The best-confidence L/H token (`LH_spotter.py` lines 115-124): keeps the
first token strictly above the running best, starting from the floor 0.1. -/
def best_glyph (rs : List GlyphTok) : Option GlyphTok :=
  (rs.foldl best_glyph_step (mkRat 1 10, none)).2

/-- Classification of one pressure reading (`LH_spotter.py` lines 83-200):
`none` iff the clipped window is empty; otherwise the OCR path if it found an
L/H token, else the left/right pixel-density heuristic
(`'L' if left_white > right_white * 1.5 else 'H'`). -/
def classify_pressure (height width : ℤ) (inp : ClassifyIn) (p : PressureReading) :
    Option LHMarker :=
  let px := p.position.1
  let py := p.position.2
  let w := search_window height width px py
  let x1 := w.1
  let y1 := w.2.1
  let x2 := w.2.2.1
  let y2 := w.2.2.2
  let mrect : Quad := ⟨(x1, y1), (x2, y1), (x2, y2), (x1, y2)⟩
  if roi_empty height width px py then none
  else
    match best_glyph inp.ocr with
    | some g =>
      some { position := (x1 + Int.tdiv (g.tl.1 + g.br.1) 2,
                          y1 + Int.tdiv (g.tl.2 + g.br.2) 2)
             text := g.text
             value := p.value
             prob := g.prob
             pressure_position := p.position
             pressure_rect_points := p.rect_points
             marker_rect_points := mrect
             pattern_analyzed := false }
    | none =>
      some { position := (px, py - 20)
             text := if 2 * inp.left_white > 3 * inp.right_white then "L" else "H"
             value := p.value
             prob := mkRat 1 2
             pressure_position := p.position
             pressure_rect_points := p.rect_points
             marker_rect_points := mrect
             pattern_analyzed := true }

/-- One iteration of the classifier loop: a produced marker is appended to
the L list when its text is `"L"`, else to the H list (`LH_spotter.py`
lines 175-195). -/
def classify_step (height width : ℤ) (acc : List LHMarker × List LHMarker)
    (pc : PressureReading × ClassifyIn) : List LHMarker × List LHMarker :=
  match classify_pressure height width pc.2 pc.1 with
  | none => acc
  | some m =>
    if m.text == "L" then (acc.1 ++ [m], acc.2) else (acc.1, acc.2 ++ [m])

/-- The classifier loop (`LH_spotter.py` lines 83-200): each pressure reading
is paired with the external observations for its window. -/
def classify_pressures (height width : ℤ)
    (ps : List (PressureReading × ClassifyIn)) : List LHMarker × List LHMarker :=
  ps.foldl (classify_step height width) ([], [])

/-! ### Connected-component strategy (`x_spotter.py` lines 59-150) -/

/-- One row of `cv2.connectedComponentsWithStats`: area, truncated centroid,
and bounding box. -/
structure CComp where
  area : ℕ
  cx : ℤ
  cy : ℤ
  bx : ℤ
  by' : ℤ
  bw : ℕ
  bh : ℕ
  deriving DecidableEq, Repr

/-- `w / h if h > 0 else 0` as an exact rational (`x_spotter.py` line 95);
`mkRat w h` is the rational w/h (see `aspectQ_eq_div`). -/
def aspectQ (c : CComp) : ℚ := if 0 < c.bh then mkRat c.bw c.bh else 0

theorem aspectQ_eq_div (c : CComp) :
    aspectQ c = if 0 < c.bh then (c.bw : ℚ) / c.bh else 0 := by
  unfold aspectQ
  split_ifs with h
  · rw [Rat.mkRat_eq_div]; norm_num
  · rfl

/-- The acceptance filter of `process_components` (`x_spotter.py` lines
81-114) for one component, given the image size and the known positions the
duplicate test runs against: area band, aspect band, border margin, then the
squared-distance duplicate test. -/
def cc_accept (is_sensitive : Bool) (imgH imgW : ℤ) (known : List (ℤ × ℤ))
    (c : CComp) : Bool :=
  let minArea : ℕ := if is_sensitive then 2 else 5
  let maxArea : ℕ := if is_sensitive then 150 else 100
  if c.area < minArea || c.area > maxArea then false
  else
    let rMin : ℚ := if is_sensitive then mkRat 3 10 else mkRat 1 2
    let rMax : ℚ := if is_sensitive then 3 else 2
    if aspectQ c < rMin || aspectQ c > rMax then false
    else
      let margin : ℤ := if is_sensitive then 5 else 10
      if c.cx < margin || c.cx > imgW - margin || c.cy < margin || c.cy > imgH - margin then
        false
      else
        let dupThr : ℤ := if is_sensitive then 200 else 100
        !known.any fun e => decide ((c.cx - e.1) ^ 2 + (c.cy - e.2) ^ 2 < dupThr)

/-- `process_components` (`x_spotter.py` lines 79-148): accepted components
become candidates whose duplicate test also sees earlier acceptances of the
same pass; a small sensitive-pass component with foreground nearby (the
`np.sum(roi) > 0` probe, supplied as the oracle `nearbyFg`) is tagged
"distorted". -/
def process_components (is_sensitive : Bool) (imgH imgW : ℤ)
    (nearbyFg : ℤ × ℤ → Bool) (existing : List (ℤ × ℤ)) (comps : List CComp) :
    List XMarker :=
  comps.foldl
    (fun found c =>
      if cc_accept is_sensitive imgH imgW
          (existing ++ found.map (fun m => m.position)) c then
        let t :=
          if is_sensitive && decide (c.area < 10) && nearbyFg (c.cx, c.cy) then
            "X (Distorted)"
          else if is_sensitive then "X (Sensitive)" else "X (CC)"
        found ++ [⟨(c.cx, c.cy), t⟩]
      else found)
    []

/-! ### Header regions (`main_spotter.py` 70-78, `LH_spotter.py` 57,
`x_spotter.py` 161-167) -/

/-- Membership in the zeroed header-mask rectangle of `main_spotter.py`
lines 70-78: `header_mask[0:int(0.11*height), 0:int(0.38*width)] = 0`. -/
def in_header_mask (height width y x : ℕ) : Bool :=
  decide (y < 11 * height / 100) && decide (x < 38 * width / 100)

/-- The isolated-scan skip test of `find_isolated_x_markers`
(`x_spotter.py` lines 161-167): `y < int(0.12*height) and x <
int(0.40*width)`. -/
def iso_scan_skip (height width y x : ℕ) : Bool :=
  decide (y < 12 * height / 100) && decide (x < 40 * width / 100)

/-! ### Heap view of the association pass (for the frame property)

Python marker records are mutable dict objects.  To state that
`connect_x_markers_to_lh` never writes to the dicts passed in, the pass is
also rendered against an explicit object store: a list of cells indexed by
object id, where `dict(marker)` / `.copy()` allocates a fresh cell (append)
and every field write is a `List.set` at the written object's id.  The input
collections hand the function ids of pre-existing cells. -/

/-- A dict-shaped marker record in the store.  `associated_x` holds object
references (store ids) of committed candidate records, exactly as the Python
list holds references to the `connected_x` dicts. -/
structure MRec where
  position : ℤ × ℤ
  text : String
  value : ℕ
  prob : ℚ
  pressure_position : ℤ × ℤ
  pressure_rect_points : Quad
  marker_rect_points : Quad
  pattern_analyzed : Bool
  associated_x : List ℕ
  assigned : Bool
  associated_to : Option (ℤ × ℤ)
  is_l : Option Bool
  distSq : Option ℤ
  deriving DecidableEq, Repr

/-- View of a stored record as an L/H marker value (the fields
`connect_x_markers_to_lh` reads from its L/H inputs). -/
def MRec.toLH (m : MRec) : LHMarker :=
  ⟨m.position, m.text, m.value, m.prob, m.pressure_position,
   m.pressure_rect_points, m.marker_rect_points, m.pattern_analyzed⟩

/-- View of a stored record as a candidate value. -/
def MRec.toX (m : MRec) : XMarker := ⟨m.position, m.text⟩

/-- Store state during the commit loop: the cell array, the committed
candidates' ids, and `used_x_markers`. -/
structure StoreSt where
  cells : List MRec
  connected : List ℕ
  usedX : List ℕ
  deriving DecidableEq, Repr

/-- One iteration of the commit loop against the store (`connector.py` lines
161-175): `tgtId` is the id of the copied target dict; on commit a fresh
`connected_x` cell is allocated and the two writes hit the target's cell
only. -/
def connectStoreStep (lUpdIds hUpdIds : List ℕ) (s : StoreSt) (c : Conn) : StoreSt :=
  match (if c.is_l then lUpdIds else hUpdIds)[c.ti]? with
  | none => s
  | some tgtId =>
    match s.cells[tgtId]? with
    | none => s
    | some tgt =>
      if s.usedX.contains c.xi || tgt.assigned then s
      else
        let cxId := s.cells.length
        let cxCell : MRec :=
          { position := c.xm.position, text := c.xm.text, value := 0, prob := 0,
            pressure_position := (0, 0),
            pressure_rect_points := ⟨(0,0),(0,0),(0,0),(0,0)⟩,
            marker_rect_points := ⟨(0,0),(0,0),(0,0),(0,0)⟩,
            pattern_analyzed := false, associated_x := [], assigned := false,
            associated_to := some tgt.position, is_l := some c.is_l,
            distSq := some c.distSq }
        let tgt' : MRec :=
          { tgt with associated_x := tgt.associated_x ++ [cxId], assigned := true }
        { cells := (s.cells ++ [cxCell]).set tgtId tgt'
          connected := s.connected ++ [cxId]
          usedX := s.usedX ++ [c.xi] }

/-- `dict(marker)` followed by `marker['associated_x'] = []` and
`marker['assigned'] = False` (`connector.py` lines 129-136): a fresh record
with the copied fields and the two reset bookkeeping fields. -/
def copyForUpdate (m : MRec) : MRec :=
  { m with associated_x := [], assigned := false }

/-- `connect_x_markers_to_lh` against the store (`connector.py` lines
126-181).  The copies `[dict(marker) for marker in ...]` allocate fresh
cells; reads of the input collections dereference their ids; the commit loop
then runs on the fresh ids.  Returns the final store together with the
updated-list ids and the committed ids. -/
def connect_store (σ : List MRec) (xIds lIds hIds : List ℕ) :
    List MRec × List ℕ × List ℕ × List ℕ :=
  let xVals := xIds.filterMap fun i => σ[i]?
  let lVals := lIds.filterMap fun i => σ[i]?
  let hVals := hIds.filterMap fun i => σ[i]?
  let valid := get_valid_x_markers (xVals.map MRec.toX) (lVals.map MRec.toLH)
      (hVals.map MRec.toLH)
  let lCopies := lVals.map copyForUpdate
  let hCopies := hVals.map copyForUpdate
  let σ1 := σ ++ lCopies ++ hCopies
  let lUpdIds := (List.range lCopies.length).map fun i => σ.length + i
  let hUpdIds := (List.range hCopies.length).map fun i => σ.length + lCopies.length + i
  let conns := stableSortK (fun c => c.distSq)
      (possible_connections valid (lVals.map MRec.toLH) (hVals.map MRec.toLH))
  let s := conns.foldl (connectStoreStep lUpdIds hUpdIds) ⟨σ1, [], []⟩
  (s.cells, lUpdIds, hUpdIds, s.connected)

/-! ### Pipeline composition (`detect_weather_elements`, `main_spotter.py`
40-131)

The pixel-level primitives (contour extraction, component labeling, the
isolated pixel scan, the recognizer) are external collaborators; their
outputs for the fixed input image are part of the pipeline input record
below, exactly as the determinism property quantifies them. -/

/-- Output record per system, as assembled by `format_output_data` +
`update_output_data`: kind (true = L), pressure value, center, associated
candidate centers in association order. -/
def assemble_records (lU hU : List UpdMarker) :
    List (Bool × ℕ × (ℤ × ℤ) × List (ℤ × ℤ)) :=
  lU.map (fun m => (true, m.base.value, m.base.position,
    m.associated_x.map fun cx => cx.base.position)) ++
  hU.map (fun m => (false, m.base.value, m.base.position,
    m.associated_x.map fun cx => cx.base.position))

/-- The full input of one `detect_weather_elements` run: the image
dimensions and the image-determined outputs of the external primitives. -/
structure PipelineIn where
  height : ℤ
  width : ℤ
  digit_toks : List OcrTok
  glyph_obs : List ClassifyIn
  shape_markers : List XMarker
  std_comps : List CComp
  sens_comps : List CComp
  nearbyFg : ℤ × ℤ → Bool
  iso_markers : List XMarker

/-- The detection-and-association pipeline (`main_spotter.py` lines 80-111):
pool the three candidate strategies (the connected-component passes run
against the shape-pass positions), locate and classify the pressure systems,
then associate and assemble the output records. -/
def pipeline_records (a : PipelineIn) : List (Bool × ℕ × (ℤ × ℤ) × List (ℤ × ℤ)) :=
  let ex1 := a.shape_markers.map fun m => m.position
  let cc1 := process_components false a.height a.width a.nearbyFg ex1 a.std_comps
  let cc2 := process_components true a.height a.width a.nearbyFg ex1 a.sens_comps
  let xs := a.shape_markers ++ cc1 ++ cc2 ++ a.iso_markers
  let prs := locate_pressures a.height a.width true a.digit_toks
  let lh := classify_pressures a.height a.width (prs.zip a.glyph_obs)
  let r := connect_x_markers_to_lh xs lh.1 lh.2
  assemble_records r.1 r.2.1

/-! ## Claim C3: pressure-token rejection -/

/-- Claim C3, counterexample.  The claim states that a token whose confidence
does not exceed the minimum floor (0.3) yields no PressureReading; but the
source only rejects `prob < 0.3` (`LH_spotter.py` line 47), so a token with
confidence exactly 0.3, text "1000" and center outside the header is
retained. -/
theorem C3_counterexample :
    (⟨(100, 100), (120, 100), (120, 110), (100, 110), "1000", mkRat 3 10⟩ : OcrTok).prob
        ≤ mkRat 3 10 ∧
    locate_pressure_tok 200 200 true
        ⟨(100, 100), (120, 100), (120, 110), (100, 110), "1000", mkRat 3 10⟩ ≠ none := by
  constructor
  · decide
  · decide

/-- Claim C3, amended: the Pressure Locator emits no PressureReading when the
token's text is not exactly 3 or 4 digits, or its confidence is strictly
below the minimum floor 0.3, or its numeric value lies outside [950, 1050];
in particular a token reading "1200" yields no system at all. -/
theorem C3_locator_rejects (height width : ℤ) (useMask : Bool) (t : OcrTok)
    (h : str34digits t.text = false ∨ t.prob < mkRat 3 10 ∨
         strVal t.text < 950 ∨ 1050 < strVal t.text) :
    locate_pressure_tok height width useMask t = none := by
  unfold locate_pressure_tok
  rcases h with h | h | h | h
  · simp [h]
  · simp [h]
  · have hb : ¬(950 ≤ strVal t.text ∧ strVal t.text ≤ 1050) := by omega
    simp [hb]
  · have hb : ¬(950 ≤ strVal t.text ∧ strVal t.text ≤ 1050) := by omega
    simp [hb]

/-- Claim C3, witness: a token reading "1200" (out of band) is rejected. -/
theorem C3_locator_rejects_witness :
    (strVal "1200" < 950 ∨ 1050 < strVal "1200") ∧
    locate_pressure_tok 200 200 true
        ⟨(100, 100), (120, 100), (120, 110), (100, 110), "1200", mkRat 9 10⟩ = none :=
  ⟨Or.inr (by decide),
   C3_locator_rejects 200 200 true _ (Or.inr (Or.inr (Or.inr (by decide))))⟩

/-! ## Claim C6: header regions of the full-image scans -/

/-- Claim C6, counterexample.  The claim states that every full-image
detection stage excludes exactly the 11%-height by 38%-width top-left
rectangle; but the isolated-scan strategy (`x_spotter.py` lines 161-167)
skips a 12% by 40% rectangle: for a 1000x1000 image, the stride position
(x, y) = (390, 115) is skipped by the isolated scan although it lies outside
the header-mask rectangle. -/
theorem C6_counterexample :
    iso_scan_skip 1000 1000 115 390 = true ∧
    in_header_mask 1000 1000 115 390 = false := by
  decide

/-- Claim C6, amended: the header-mask stages (`main_spotter.py` lines 70-78,
propagated to the pressure scan) exclude the 11%-height by 38%-width
rectangle, while the isolated-scan strategy skips the larger 12%-height by
40%-width rectangle, which contains the former. -/
theorem C6_header_containment (height width y x : ℕ)
    (h : in_header_mask height width y x = true) :
    iso_scan_skip height width y x = true := by
  unfold in_header_mask at h
  unfold iso_scan_skip
  simp only [Bool.and_eq_true, decide_eq_true_eq] at h ⊢
  refine ⟨lt_of_lt_of_le h.1 (Nat.div_le_div_right ?_),
          lt_of_lt_of_le h.2 (Nat.div_le_div_right ?_)⟩
  · omega
  · omega

/-- Claim C6, witness: a point inside the header-mask rectangle is also
skipped by the isolated scan. -/
theorem C6_header_containment_witness :
    in_header_mask 1000 1000 50 50 = true ∧ iso_scan_skip 1000 1000 50 50 = true :=
  ⟨by decide, C6_header_containment 1000 1000 50 50 (by decide)⟩

/-! ## Claim C7: the glyph search window geometry -/

/-- Claim C7, counterexample.  The claim states that for every reading
position the window is a fixed-size square centered exactly 20 px above the
reading; but the window is clipped to the image (`LH_spotter.py` lines
91-94): at reading center (5, 50) in a 200x200 image the window is
(0, 20, 15, 40) — 15 px wide, not a square, and not horizontally centered on
the reading. -/
theorem C7_counterexample :
    ¬ ((search_window 200 200 5 50).2.2.1 - (search_window 200 200 5 50).1 = 20 ∧
       (search_window 200 200 5 50).2.2.2 - (search_window 200 200 5 50).2.1 = 20 ∧
       (search_window 200 200 5 50).1 + (search_window 200 200 5 50).2.2.1 = 2 * 5 ∧
       (search_window 200 200 5 50).2.1 + (search_window 200 200 5 50).2.2.2
         = 2 * (50 - 20)) := by
  decide

/-- Claim C7, amended: whenever the nominal window fits inside the image
(10 ≤ px, px + 10 ≤ width, 30 ≤ py, py − 10 ≤ height), the glyph search
window is exactly the 20x20 square whose center is (px, py − 20), i.e. 20
pixels vertically above the reading's center; near the borders the window is
clipped and these properties can fail. -/
theorem C7_search_window_interior (height width px py : ℤ)
    (hx1 : 10 ≤ px) (hx2 : px + 10 ≤ width) (hy1 : 30 ≤ py) (hy2 : py - 10 ≤ height) :
    search_window height width px py = (px - 10, py - 30, px + 10, py - 10) ∧
    (px + 10) - (px - 10) = 20 ∧ (py - 10) - (py - 30) = 20 ∧
    (px - 10) + (px + 10) = 2 * px ∧ (py - 30) + (py - 10) = 2 * (py - 20) := by
  refine ⟨?_, by ring, by ring, by ring, by ring⟩
  unfold search_window
  rw [max_eq_right (by omega), max_eq_right (by omega),
      min_eq_right (by omega), min_eq_right (by omega)]

/-- Claim C7, witness: an interior reading gets the exact 20x20 window. -/
theorem C7_search_window_interior_witness :
    ((10 : ℤ) ≤ 100 ∧ (100 : ℤ) + 10 ≤ 200 ∧ (30 : ℤ) ≤ 100 ∧ (100 : ℤ) - 10 ≤ 200) ∧
    search_window 200 200 100 100 = (90, 70, 110, 90) :=
  ⟨⟨by norm_num, by norm_num, by norm_num, by norm_num⟩,
   (C7_search_window_interior 200 200 100 100 (by norm_num) (by norm_num)
      (by norm_num) (by norm_num)).1⟩

/-! ## Claim C8: connected-component acceptance bounds -/

/-- Claim C8: the standard (tight) connected-component pass accepts a
component only if its area lies in [5, 100] and its aspect ratio lies in
[0.3, 2.0] (the code's tight aspect filter is in fact the narrower
[0.5, 2.0] ⊆ [0.3, 2.0]); the sensitive pass accepts only if its area lies
in [2, 150] and its aspect ratio lies in [0.3, 3.0]. -/
theorem C8_component_bounds (is_sensitive : Bool) (imgH imgW : ℤ)
    (known : List (ℤ × ℤ)) (c : CComp)
    (h : cc_accept is_sensitive imgH imgW known c = true) :
    (is_sensitive = false →
       5 ≤ c.area ∧ c.area ≤ 100 ∧ mkRat 3 10 ≤ aspectQ c ∧ aspectQ c ≤ 2) ∧
    (is_sensitive = true →
       2 ≤ c.area ∧ c.area ≤ 150 ∧ mkRat 3 10 ≤ aspectQ c ∧ aspectQ c ≤ 3) := by
  cases is_sensitive with
  | false =>
    refine ⟨fun _ => ?_, fun hc => absurd hc (by decide)⟩
    unfold cc_accept at h
    simp only [Bool.false_eq_true, if_false] at h
    split_ifs at h with h1 h2 h3
    simp only [Bool.or_eq_true, decide_eq_true_eq, not_or, not_lt] at h1 h2
    have hr : mkRat 1 2 ≤ aspectQ c ∧ aspectQ c ≤ 2 := ⟨h2.1, h2.2⟩
    exact ⟨by omega, by omega, le_trans (by decide) hr.1, hr.2⟩
  | true =>
    refine ⟨fun hc => absurd hc (by decide), fun _ => ?_⟩
    unfold cc_accept at h
    simp only [if_true] at h
    split_ifs at h with h1 h2 h3
    simp only [Bool.or_eq_true, decide_eq_true_eq, not_or, not_lt] at h1 h2
    exact ⟨by omega, by omega, h2.1, h2.2⟩

/-- Claim C8, witness: a concrete 5x5 component of area 20 away from borders
and duplicates passes the tight filter and satisfies the claimed bounds. -/
theorem C8_component_bounds_witness :
    cc_accept false 100 100 [] ⟨20, 50, 50, 45, 45, 5, 5⟩ = true ∧
    5 ≤ (⟨20, 50, 50, 45, 45, 5, 5⟩ : CComp).area ∧
    mkRat 3 10 ≤ aspectQ ⟨20, 50, 50, 45, 45, 5, 5⟩ := by
  have hb := (C8_component_bounds false 100 100 []
      ⟨20, 50, 50, 45, 45, 5, 5⟩ (by decide)).1 rfl
  exact ⟨by decide, hb.1, hb.2.2.1⟩

/-! ## Claim C2: the classifier's per-reading output -/

theorem best_glyph_step_inv (g : GlyphTok) :
    ∀ (rs : List GlyphTok) (acc : ℚ × Option GlyphTok),
      (∀ g', acc.2 = some g' → g'.text = "L" ∨ g'.text = "H") →
      (rs.foldl best_glyph_step acc).2 = some g →
      g.text = "L" ∨ g.text = "H" := by
  intro rs
  induction rs with
  | nil => intro acc hacc h; exact hacc g h
  | cons t ts ih =>
    intro acc hacc h
    rw [List.foldl_cons] at h
    refine ih (best_glyph_step acc t) ?_ h
    intro g' hg'
    unfold best_glyph_step at hg'
    by_cases hc : (t.prob > acc.1 && (t.text == "L" || t.text == "H")) = true
    · rw [if_pos hc] at hg'
      simp only [Option.some.injEq] at hg'
      subst hg'
      rcases Bool.and_eq_true_iff.mp hc with ⟨-, htxt⟩
      rcases Bool.or_eq_true_iff.mp htxt with h' | h'
      · exact Or.inl (by simpa using h')
      · exact Or.inr (by simpa using h')
    · rw [if_neg hc] at hg'
      exact hacc g' hg'

theorem best_glyph_some {rs : List GlyphTok} {g : GlyphTok}
    (h : best_glyph rs = some g) : g.text = "L" ∨ g.text = "H" := by
  unfold best_glyph at h
  exact best_glyph_step_inv g rs (mkRat 1 10, none) (by intro g' h'; cases h') h

/-- A produced marker's kind is always `"L"` or `"H"`: the OCR path filters
for those texts and the heuristic produces one of them. -/
theorem classify_pressure_text {height width : ℤ} {inp : ClassifyIn}
    {p : PressureReading} {m : LHMarker}
    (h : classify_pressure height width inp p = some m) :
    m.text = "L" ∨ m.text = "H" := by
  unfold classify_pressure at h
  by_cases hroi : roi_empty height width p.position.1 p.position.2 = true
  · rw [if_pos hroi] at h; cases h
  · rw [if_neg hroi] at h
    cases hbg : best_glyph inp.ocr with
    | some g =>
      rw [hbg] at h
      simp only [Option.some.injEq] at h
      subst h
      exact best_glyph_some hbg
    | none =>
      rw [hbg] at h
      simp only [Option.some.injEq] at h
      subst h
      by_cases hw : 2 * inp.left_white > 3 * inp.right_white
      · exact Or.inl (by simp [hw])
      · exact Or.inr (by simp [hw])

/-- The classifier drops a reading exactly when its clipped window is
empty. -/
theorem classify_pressure_none_iff {height width : ℤ} {inp : ClassifyIn}
    {p : PressureReading} :
    classify_pressure height width inp p = none ↔
      roi_empty height width p.position.1 p.position.2 = true := by
  unfold classify_pressure
  by_cases hroi : roi_empty height width p.position.1 p.position.2 = true
  · rw [if_pos hroi]; simp [hroi]
  · rw [if_neg hroi]
    cases best_glyph inp.ocr <;> simp [hroi]

theorem classify_fold (height width : ℤ) :
    ∀ (ps : List (PressureReading × ClassifyIn)) (acc : List LHMarker × List LHMarker),
      (∀ m ∈ acc.1, m.text = "L") → (∀ m ∈ acc.2, m.text = "H") →
      ((ps.foldl (classify_step height width) acc).1.length
          + (ps.foldl (classify_step height width) acc).2.length
        = acc.1.length + acc.2.length
          + (ps.filter fun pc =>
              !roi_empty height width pc.1.position.1 pc.1.position.2).length) ∧
      (∀ m ∈ (ps.foldl (classify_step height width) acc).1, m.text = "L") ∧
      (∀ m ∈ (ps.foldl (classify_step height width) acc).2, m.text = "H") := by
  intro ps
  induction ps with
  | nil =>
    intro acc h1 h2
    refine ⟨by simp, h1, h2⟩
  | cons pc rest ih =>
    intro acc h1 h2
    rw [List.foldl_cons]
    cases hcl : classify_pressure height width pc.2 pc.1 with
    | none =>
      have hstep : classify_step height width acc pc = acc := by
        unfold classify_step; rw [hcl]
      have hroi : roi_empty height width pc.1.position.1 pc.1.position.2 = true :=
        classify_pressure_none_iff.mp hcl
      have hfilter : (!roi_empty height width pc.1.position.1 pc.1.position.2) = false := by
        rw [hroi]; rfl
      rw [hstep, List.filter_cons, hfilter]
      simpa using ih acc h1 h2
    | some m =>
      have hroi : ¬ roi_empty height width pc.1.position.1 pc.1.position.2 = true := by
        intro hr
        rw [classify_pressure_none_iff.mpr hr] at hcl
        cases hcl
      have hfilter : (!roi_empty height width pc.1.position.1 pc.1.position.2) = true := by
        rw [Bool.eq_false_iff.mpr hroi]; rfl
      have hcount : (List.filter
            (fun pc => !roi_empty height width pc.1.position.1 pc.1.position.2)
            (pc :: rest)).length
          = (List.filter
              (fun pc => !roi_empty height width pc.1.position.1 pc.1.position.2)
              rest).length + 1 := by
        rw [List.filter_cons]
        simp [hfilter]
      by_cases hL : (m.text == "L") = true
      · have hstep : classify_step height width acc pc = (acc.1 ++ [m], acc.2) := by
          unfold classify_step
          rw [hcl]
          simp [hL]
        have hmt : m.text = "L" := by simpa using hL
        have h1' : ∀ m' ∈ acc.1 ++ [m], m'.text = "L" := by
          intro m' hm'
          rcases List.mem_append.mp hm' with hm' | hm'
          · exact h1 m' hm'
          · rw [List.mem_singleton.mp hm']; exact hmt
        have hrec := ih (acc.1 ++ [m], acc.2) h1' h2
        rw [hstep, hcount]
        refine ⟨?_, hrec.2⟩
        have hlen := hrec.1
        simp only [List.length_append, List.length_singleton] at hlen
        omega
      · have hstep : classify_step height width acc pc = (acc.1, acc.2 ++ [m]) := by
          unfold classify_step
          rw [hcl]
          simp [hL]
        have hmt : m.text = "H" := by
          rcases classify_pressure_text hcl with h' | h'
          · exact absurd h' (by simpa using hL)
          · exact h'
        have h2' : ∀ m' ∈ acc.2 ++ [m], m'.text = "H" := by
          intro m' hm'
          rcases List.mem_append.mp hm' with hm' | hm'
          · exact h2 m' hm'
          · rw [List.mem_singleton.mp hm']; exact hmt
        have hrec := ih (acc.1, acc.2 ++ [m]) h1 h2'
        rw [hstep, hcount]
        refine ⟨?_, hrec.2⟩
        have hlen := hrec.1
        simp only [List.length_append, List.length_singleton] at hlen
        omega

/-- Claim C2, counterexample.  The claim states every retained
PressureReading yields exactly one SystemMarker; but a reading whose center
is exactly 10 rows below the top edge gets a glyph window clipped to an
empty region and is silently skipped (`LH_spotter.py` lines 102-104).  The
reading below is retained by the locator (it lies outside the masked header
of a 200x200 image) yet the classifier produces zero markers for it. -/
theorem C2_counterexample :
    locate_pressure_tok 200 200 true
        ⟨(90, 5), (110, 5), (110, 15), (90, 15), "1000", mkRat 9 10⟩
      = some ⟨1000, (100, 10), ⟨(90, 5), (110, 5), (110, 15), (90, 15)⟩, mkRat 9 10⟩ ∧
    classify_pressures 200 200
        [(⟨1000, (100, 10), ⟨(90, 5), (110, 5), (110, 15), (90, 15)⟩, mkRat 9 10⟩,
          ⟨[], 0, 0⟩)]
      = ([], []) := by
  exact ⟨by decide, by decide⟩

/-- Claim C2, amended: every PressureReading whose clipped glyph window is
non-empty yields exactly one SystemMarker, and its kind is L or H; a reading
whose window clips to an empty region yields none (the cardinality below
counts exactly the readings with a non-empty window). -/
theorem C2_classifier_totality (height width : ℤ)
    (ps : List (PressureReading × ClassifyIn)) :
    ((classify_pressures height width ps).1.length
        + (classify_pressures height width ps).2.length
      = (ps.filter fun pc =>
          !roi_empty height width pc.1.position.1 pc.1.position.2).length) ∧
    (∀ m ∈ (classify_pressures height width ps).1, m.text = "L") ∧
    (∀ m ∈ (classify_pressures height width ps).2, m.text = "H") := by
  have h := classify_fold height width ps ([], [])
    (by intro m hm; cases hm) (by intro m hm; cases hm)
  unfold classify_pressures
  simpa using h

/-- An interior pressure reading used by the C2 witness. -/
def exReadingC2 : PressureReading :=
  ⟨1000, (100, 100), ⟨(90, 95), (110, 95), (110, 105), (90, 105)⟩, mkRat 9 10⟩

/-- Window observations with no OCR hit, used by the C2 witness. -/
def exObsC2 : ClassifyIn := ⟨[], 9, 1⟩

/-- Claim C2, witness: one interior reading with empty OCR output produces
exactly one marker (via the heuristic path). -/
theorem C2_classifier_totality_witness :
    (classify_pressures 200 200 [(exReadingC2, exObsC2)]).1.length
      + (classify_pressures 200 200 [(exReadingC2, exObsC2)]).2.length
      = ([(exReadingC2, exObsC2)].filter fun pc =>
          !roi_empty 200 200 pc.1.position.1 pc.1.position.2).length :=
  (C2_classifier_totality 200 200 [(exReadingC2, exObsC2)]).1

/-! ## Claim C4: geometric rejection before matching -/

/-- Every pairing the association engine builds uses a candidate from the
valid list and respects the distance cutoff. -/
theorem mem_possible_connections {valid : List XMarker} {ls hs : List LHMarker}
    {c : Conn} (hc : c ∈ possible_connections valid ls hs) :
    c.xm ∈ valid ∧ c.distSq ≤ MAX_X_TO_LH_DISTANCE ^ 2 := by
  unfold possible_connections at hc
  rcases List.mem_flatMap.mp hc with ⟨xim, hxim, hmem⟩
  have hxv : xim.2 ∈ valid :=
    List.getElem?_mem (List.mem_enum_iff_getElem?.mp hxim)
  rcases List.mem_append.mp hmem with hmem | hmem
  · rcases List.mem_filterMap.mp hmem with ⟨tim, -, heq⟩
    by_cases hd : sqDist xim.2.position tim.2.position ≤ MAX_X_TO_LH_DISTANCE ^ 2
    · rw [if_pos hd] at heq
      cases heq
      exact ⟨hxv, hd⟩
    · rw [if_neg hd] at heq
      cases heq
  · rcases List.mem_filterMap.mp hmem with ⟨tim, -, heq⟩
    by_cases hd : sqDist xim.2.position tim.2.position ≤ MAX_X_TO_LH_DISTANCE ^ 2
    · rw [if_pos hd] at heq
      cases heq
      exact ⟨hxv, hd⟩
    · rw [if_neg hd] at heq
      cases heq

/-- Claim C4: every consolidated candidate whose center lies inside an
expanded PressureReading box or glyph search-window box is discarded by
`get_valid_x_markers`, and the association engine's pairings are built only
from the surviving candidates, so no discarded candidate reaches the
association pass. -/
theorem C4_valid_markers_outside_boxes (xs : List XMarker) (ls hs : List LHMarker) :
    (∀ m ∈ get_valid_x_markers xs ls hs, ∀ b ∈ collect_boxes ls hs,
       is_point_inside_box m.position b = false) ∧
    (∀ c ∈ possible_connections (get_valid_x_markers xs ls hs) ls hs,
       ∀ b ∈ collect_boxes ls hs,
         is_point_inside_box c.xm.position b = false) := by
  have hmain : ∀ m ∈ get_valid_x_markers xs ls hs, ∀ b ∈ collect_boxes ls hs,
      is_point_inside_box m.position b = false := by
    intro m hm b hb
    unfold get_valid_x_markers at hm
    have := (List.mem_filter.mp hm).2
    have hall := List.all_eq_true.mp this b hb
    simpa using hall
  refine ⟨hmain, fun c hc b hb => ?_⟩
  exact hmain c.xm (mem_possible_connections hc).1 b hb

/-- Claim C4, witness: with one candidate outside every box and one inside
the pressure box, only the outside one survives, and the engine's pairing
list avoids the boxes. -/
theorem C4_valid_markers_outside_boxes_witness :
    is_point_inside_box
        ((⟨(100, 100), "X (CC)"⟩ : XMarker)).position
        (expandedBox (⟨(50, 75), (70, 75), (70, 85), (50, 85)⟩ : Quad)) = false :=
  (C4_valid_markers_outside_boxes
      [⟨(100, 100), "X (CC)"⟩, ⟨(60, 80), "X (CC)"⟩]
      [⟨(60, 60), "L", 995, mkRat 9 10, (60, 80),
        ⟨(50, 75), (70, 75), (70, 85), (50, 85)⟩,
        ⟨(50, 50), (70, 50), (70, 70), (50, 70)⟩, false⟩]
      []).1
    ⟨(100, 100), "X (CC)"⟩ (by decide)
    (expandedBox ⟨(50, 75), (70, 75), (70, 85), (50, 85)⟩) (by decide)

/-! ## Claim C1: exclusivity of the association pass -/

/-- Total number of committed associations recorded across all targets. -/
def sumAssoc (s : ConnSt) : ℕ :=
  ((s.lUpd ++ s.hUpd).map fun m => m.associated_x.length).sum

theorem sum_map_set {α : Type} (f : α → ℕ) :
    ∀ (l : List α) (i : ℕ) (a b : α), l[i]? = some b →
      ((l.set i a).map f).sum + f b = (l.map f).sum + f a := by
  intro l
  induction l with
  | nil => intro i a b h; cases h
  | cons x xs ih =>
    intro i a b h
    cases i with
    | zero =>
      simp only [List.getElem?_cons_zero, Option.some.injEq] at h
      subst h
      simp only [List.set_cons_zero, List.map_cons, List.sum_cons]
      omega
    | succ n =>
      simp only [List.getElem?_cons_succ] at h
      have := ih n a b h
      simp only [List.set_cons_succ, List.map_cons, List.sum_cons]
      omega

/-- The invariant maintained by the commit loop. -/
def ConnInv (s : ConnSt) : Prop :=
  s.usedX.Nodup ∧
  s.connected.length = s.usedX.length ∧
  sumAssoc s = s.usedX.length ∧
  (∀ m ∈ s.lUpd ++ s.hUpd,
     (m.assigned = false → m.associated_x = []) ∧ m.associated_x.length ≤ 1) ∧
  (∀ cx ∈ s.connected, cx.distSq ≤ MAX_X_TO_LH_DISTANCE ^ 2)

theorem connectStep_inv {s : ConnSt} {c : Conn}
    (hc : c.distSq ≤ MAX_X_TO_LH_DISTANCE ^ 2) (h : ConnInv s) :
    ConnInv (connectStep s c) := by
  obtain ⟨hnd, hlen, hsum, hpt, hdist⟩ := h
  unfold connectStep
  by_cases hb : c.is_l = true
  case pos =>
    simp only [if_pos hb]
    cases hget : s.lUpd[c.ti]? with
    | none => exact ⟨hnd, hlen, hsum, hpt, hdist⟩
    | some tgt =>
      dsimp only
      by_cases hskip : (s.usedX.contains c.xi || tgt.assigned) = true
      · rw [if_pos hskip]
        exact ⟨hnd, hlen, hsum, hpt, hdist⟩
      · rw [if_neg hskip]
        simp only [Bool.or_eq_true, not_or, Bool.not_eq_true] at hskip
        obtain ⟨hused, hassigned⟩ := hskip
        have hxi : c.xi ∉ s.usedX := by
          intro hmem
          simp at hused
          exact hused hmem
        have htgt_mem : tgt ∈ s.lUpd ++ s.hUpd :=
          List.mem_append.mpr (Or.inl (List.getElem?_mem hget))
        have htgt_empty : tgt.associated_x = [] := (hpt tgt htgt_mem).1 hassigned
        have htgt_len : tgt.associated_x.length = 0 := by rw [htgt_empty]; rfl
        refine ⟨?_, ?_, ?_, ?_, ?_⟩
        · rw [List.nodup_append]
          refine ⟨hnd, by simp, fun a ha hb' => ?_⟩
          rw [List.mem_singleton.mp hb'] at ha
          exact hxi ha
        · simp only [List.length_append, List.length_singleton]
          omega
        · have hset := sum_map_set (fun m => m.associated_x.length) s.lUpd c.ti
            ⟨tgt.base,
             tgt.associated_x ++ [⟨c.xm, tgt.base.position, c.is_l, c.distSq⟩],
             true⟩ tgt hget
          dsimp only at hset
          simp only [List.length_append, List.length_singleton] at hset
          unfold sumAssoc at hsum ⊢
          simp only [List.map_append, List.sum_append] at hsum ⊢
          simp only [List.length_append, List.length_singleton]
          omega
        · intro m hm
          rcases List.mem_append.mp hm with hm | hm
          · rcases List.mem_or_eq_of_mem_set hm with hm | rfl
            · exact hpt m (List.mem_append.mpr (Or.inl hm))
            · constructor
              · intro hfalse
                simp at hfalse
              · simp only [List.length_append, List.length_singleton]
                omega
          · exact hpt m (List.mem_append.mpr (Or.inr hm))
        · intro cx hcx
          rcases List.mem_append.mp hcx with hcx | hcx
          · exact hdist cx hcx
          · rw [List.mem_singleton.mp hcx]
            exact hc
  case neg =>
    simp only [if_neg hb]
    cases hget : s.hUpd[c.ti]? with
    | none => exact ⟨hnd, hlen, hsum, hpt, hdist⟩
    | some tgt =>
      dsimp only
      by_cases hskip : (s.usedX.contains c.xi || tgt.assigned) = true
      · rw [if_pos hskip]
        exact ⟨hnd, hlen, hsum, hpt, hdist⟩
      · rw [if_neg hskip]
        simp only [Bool.or_eq_true, not_or, Bool.not_eq_true] at hskip
        obtain ⟨hused, hassigned⟩ := hskip
        have hxi : c.xi ∉ s.usedX := by
          intro hmem
          simp at hused
          exact hused hmem
        have htgt_mem : tgt ∈ s.lUpd ++ s.hUpd :=
          List.mem_append.mpr (Or.inr (List.getElem?_mem hget))
        have htgt_empty : tgt.associated_x = [] := (hpt tgt htgt_mem).1 hassigned
        have htgt_len : tgt.associated_x.length = 0 := by rw [htgt_empty]; rfl
        refine ⟨?_, ?_, ?_, ?_, ?_⟩
        · rw [List.nodup_append]
          refine ⟨hnd, by simp, fun a ha hb' => ?_⟩
          rw [List.mem_singleton.mp hb'] at ha
          exact hxi ha
        · simp only [List.length_append, List.length_singleton]
          omega
        · have hset := sum_map_set (fun m => m.associated_x.length) s.hUpd c.ti
            ⟨tgt.base,
             tgt.associated_x ++ [⟨c.xm, tgt.base.position, c.is_l, c.distSq⟩],
             true⟩ tgt hget
          dsimp only at hset
          simp only [List.length_append, List.length_singleton] at hset
          unfold sumAssoc at hsum ⊢
          simp only [List.map_append, List.sum_append] at hsum ⊢
          simp only [List.length_append, List.length_singleton]
          omega
        · intro m hm
          rcases List.mem_append.mp hm with hm | hm
          · exact hpt m (List.mem_append.mpr (Or.inl hm))
          · rcases List.mem_or_eq_of_mem_set hm with hm | rfl
            · exact hpt m (List.mem_append.mpr (Or.inr hm))
            · constructor
              · intro hfalse
                simp at hfalse
              · simp only [List.length_append, List.length_singleton]
                omega
        · intro cx hcx
          rcases List.mem_append.mp hcx with hcx | hcx
          · exact hdist cx hcx
          · rw [List.mem_singleton.mp hcx]
            exact hc

theorem foldl_connectStep_inv :
    ∀ (cs : List Conn) (s : ConnSt),
      (∀ c ∈ cs, c.distSq ≤ MAX_X_TO_LH_DISTANCE ^ 2) → ConnInv s →
      ConnInv (cs.foldl connectStep s) := by
  intro cs
  induction cs with
  | nil => intro s _ h; exact h
  | cons c rest ih =>
    intro s hall h
    rw [List.foldl_cons]
    exact ih (connectStep s c) (fun c' hc' => hall c' (List.mem_cons_of_mem c hc'))
      (connectStep_inv (hall c (List.mem_cons_self c rest)) h)

theorem connInv_init (ls hs : List LHMarker) :
    ConnInv ⟨ls.map (fun m => ⟨m, [], false⟩), hs.map (fun m => ⟨m, [], false⟩), [], []⟩ := by
  refine ⟨List.nodup_nil, rfl, ?_, ?_, ?_⟩
  · unfold sumAssoc
    simp only [List.length_nil]
    apply List.sum_eq_zero
    intro x hx
    rcases List.mem_map.mp hx with ⟨m, hm, rfl⟩
    rcases List.mem_append.mp hm with hm | hm <;>
      rcases List.mem_map.mp hm with ⟨m', -, rfl⟩ <;> rfl
  · intro m hm
    rcases List.mem_append.mp hm with hm | hm <;>
      rcases List.mem_map.mp hm with ⟨m', -, rfl⟩ <;>
      exact ⟨fun _ => rfl, by simp⟩
  · intro cx hcx
    cases hcx

/-- Claim C1: the association pass builds only pairings within the 100 px
cutoff, walks them in ascending distance order, and commits each candidate
and each target at most once: after the pass every system has at most one
committed candidate, the consumed-candidate set has no duplicates, and the
number of recorded associations equals the number of committed pairings and
of consumed candidates. -/
theorem C1_association_exclusive (xs : List XMarker) (ls hs : List LHMarker) :
    (∀ c ∈ sorted_connections xs ls hs, c.distSq ≤ MAX_X_TO_LH_DISTANCE ^ 2) ∧
    (sorted_connections xs ls hs).Pairwise (fun a b => a.distSq ≤ b.distSq) ∧
    (∀ m ∈ (connect_state xs ls hs).lUpd ++ (connect_state xs ls hs).hUpd,
       m.associated_x.length ≤ 1) ∧
    (connect_state xs ls hs).usedX.Nodup ∧
    (connect_state xs ls hs).connected.length = (connect_state xs ls hs).usedX.length ∧
    sumAssoc (connect_state xs ls hs) = (connect_state xs ls hs).usedX.length := by
  have hmem : ∀ c ∈ sorted_connections xs ls hs,
      c.distSq ≤ MAX_X_TO_LH_DISTANCE ^ 2 := by
    intro c hc
    unfold sorted_connections at hc
    rw [mem_stableSortK] at hc
    exact (mem_possible_connections hc).2
  have hinv : ConnInv (connect_state xs ls hs) := by
    unfold connect_state
    exact foldl_connectStep_inv _ _ hmem (connInv_init ls hs)
  obtain ⟨hnd, hlen, hsum, hpt, -⟩ := hinv
  exact ⟨hmem, pairwise_stableSortK _ _, fun m hm => (hpt m hm).2, hnd, hlen, hsum⟩

/-- Claim C1, witness: two candidates compete for one L system within the
cutoff; the pass consumes the nearer one only, with no duplicate
consumption. -/
theorem C1_association_exclusive_witness :
    (connect_state [⟨(100, 100), "X (CC)"⟩, ⟨(130, 100), "X (CC)"⟩]
        [⟨(60, 60), "L", 995, mkRat 9 10, (60, 80),
          ⟨(50, 75), (70, 75), (70, 85), (50, 85)⟩,
          ⟨(50, 50), (70, 50), (70, 70), (50, 70)⟩, false⟩]
        []).usedX.Nodup :=
  (C1_association_exclusive [⟨(100, 100), "X (CC)"⟩, ⟨(130, 100), "X (CC)"⟩]
      [⟨(60, 60), "L", 995, mkRat 9 10, (60, 80),
        ⟨(50, 75), (70, 75), (70, 85), (50, 85)⟩,
        ⟨(50, 50), (70, 50), (70, 70), (50, 70)⟩, false⟩]
      []).2.2.2.1

/-! ## Claim C5: idempotence of the Deduplicator -/

theorem le_meanPos_fst {g : List XMarker} {lo : ℤ} (hne : g ≠ [])
    (h : ∀ m ∈ g, lo ≤ m.position.1) : lo ≤ (meanPos g).1 := by
  unfold meanPos
  apply le_tdiv_of_mul_le (List.length_pos.mpr hne)
  have hs := List.card_nsmul_le_sum (g.map fun m => m.position.1) lo ?_
  · simpa [nsmul_eq_mul] using hs
  · intro x hx
    rcases List.mem_map.mp hx with ⟨m, hm, rfl⟩
    exact h m hm

theorem meanPos_fst_le {g : List XMarker} {hi : ℤ} (hne : g ≠ [])
    (h : ∀ m ∈ g, m.position.1 ≤ hi) : (meanPos g).1 ≤ hi := by
  unfold meanPos
  apply tdiv_le_of_le_mul (List.length_pos.mpr hne)
  have hs := List.sum_le_card_nsmul (g.map fun m => m.position.1) hi ?_
  · simpa [nsmul_eq_mul] using hs
  · intro x hx
    rcases List.mem_map.mp hx with ⟨m, hm, rfl⟩
    exact h m hm

/-- The grouping loop emits groups in horizontal order: when the current
group's members all sit left of the remaining (sorted) markers and above a
lower bound, the output is a chain of non-decreasing x positions bounded
below. -/
theorem consolidateRun_sorted :
    ∀ (rest cur : List XMarker) (lo : ℤ), cur ≠ [] →
      rest.Pairwise (fun a b => a.position.1 ≤ b.position.1) →
      (∀ c ∈ cur, ∀ r ∈ rest, c.position.1 ≤ r.position.1) →
      (∀ c ∈ cur, lo ≤ c.position.1) →
      (consolidateRun cur rest).Chain' (fun a b => a.position.1 ≤ b.position.1) ∧
      (∀ o ∈ consolidateRun cur rest, lo ≤ o.position.1) := by
  intro rest
  induction rest with
  | nil =>
    intro cur lo hne _ _ hlo
    cases cur with
    | nil => exact absurd rfl hne
    | cons m ms =>
      simp only [consolidateRun, flushGroup]
      refine ⟨List.chain'_singleton _, ?_⟩
      intro o ho
      rw [List.mem_singleton.mp ho]
      exact le_meanPos_fst (by simp) hlo
  | cons r rs ih =>
    intro cur lo hne hpair hsep hlo
    rcases List.pairwise_cons.mp hpair with ⟨hr, hrs⟩
    rw [consolidateRun]
    by_cases hclose : (cur.any fun g => close10 r.position g.position) = true
    · rw [if_pos hclose]
      apply ih (cur ++ [r]) lo (by simp) hrs
      · intro c hc r' hr'
        rcases List.mem_append.mp hc with hc | hc
        · exact hsep c hc r' (List.mem_cons_of_mem r hr')
        · rw [List.mem_singleton.mp hc]
          exact hr r' hr'
      · intro c hc
        rcases List.mem_append.mp hc with hc | hc
        · exact hlo c hc
        · rw [List.mem_singleton.mp hc]
          cases cur with
          | nil => exact absurd rfl hne
          | cons m0 ms0 =>
            exact le_trans (hlo m0 (List.mem_cons_self m0 ms0))
              (hsep m0 (List.mem_cons_self m0 ms0) r (List.mem_cons_self r rs))
    · rw [if_neg hclose]
      cases cur with
      | nil => exact absurd rfl hne
      | cons m0 ms0 =>
        have hmean_le : (meanPos (m0 :: ms0)).1 ≤ r.position.1 :=
          meanPos_fst_le (by simp)
            (fun c hc => hsep c hc r (List.mem_cons_self r rs))
        have hIH := ih [r] ((meanPos (m0 :: ms0)).1) (by simp) hrs
          (fun c hc r' hr' => by rw [List.mem_singleton.mp hc]; exact hr r' hr')
          (fun c hc => by rw [List.mem_singleton.mp hc]; exact hmean_le)
        simp only [flushGroup, List.singleton_append]
        constructor
        · refine List.chain'_cons'.mpr ⟨?_, hIH.1⟩
          intro y hy
          exact hIH.2 y (List.mem_of_mem_head? hy)
        · intro o ho
          rcases List.mem_cons.mp ho with rfl | ho
          · exact le_meanPos_fst (by simp) hlo
          · exact le_trans (le_meanPos_fst (by simp) hlo) (hIH.2 o ho)

/-- The Deduplicator's output is sorted by the horizontal coordinate. -/
theorem consolidate_sorted (xs : List XMarker) :
    (consolidate_x_markers xs).Chain' (fun a b => a.position.1 ≤ b.position.1) := by
  unfold consolidate_x_markers
  cases hS : stableSortK (fun m => m.position.1) xs with
  | nil => exact List.chain'_nil
  | cons m ms =>
    have hpair := pairwise_stableSortK (fun m => m.position.1) xs
    rw [hS] at hpair
    rcases List.pairwise_cons.mp hpair with ⟨hm, hms⟩
    exact (consolidateRun_sorted ms [m] m.position.1 (by simp) hms
      (fun c hc r hr => by rw [List.mem_singleton.mp hc]; exact hm r hr)
      (fun c hc => by rw [List.mem_singleton.mp hc])).1

/-- On a run whose adjacent markers are farther than the grouping radius, the
grouping loop makes every group a singleton and reproduces the list. -/
theorem consolidateRun_sep :
    ∀ (rest : List XMarker) (a : XMarker),
      List.Chain' (fun x y => 100 < sqDist x.position y.position) (a :: rest) →
      consolidateRun [a] rest = a :: rest := by
  intro rest
  induction rest with
  | nil =>
    intro a _
    simp only [consolidateRun, flushGroup]
    have hm : meanPos [a] = a.position := by
      unfold meanPos
      simp [Int.tdiv_one]
    rw [hm]
  | cons r rs ih =>
    intro a hchain
    rcases List.chain'_cons.mp hchain with ⟨hfar, htail⟩
    rw [consolidateRun]
    have hcond : ¬(([a].any fun g => close10 r.position g.position) = true) := by
      simp only [List.any_cons, List.any_nil, Bool.or_false]
      unfold close10
      rw [decide_eq_true_eq]
      rw [sqDist_comm]
      omega
    rw [if_neg hcond]
    have hflush : flushGroup [a] = [a] := by
      simp only [flushGroup]
      have hm : meanPos [a] = a.position := by
        unfold meanPos
        simp [Int.tdiv_one]
      rw [hm]
    rw [hflush, ih r htail]
    rfl

/-- Deduplication fixes any x-sorted list whose adjacent markers are more
than 10 px apart. -/
theorem consolidate_fix (ys : List XMarker)
    (hsorted : ys.Chain' (fun a b => a.position.1 ≤ b.position.1))
    (hfar : ys.Chain' (fun a b => 100 < sqDist a.position b.position)) :
    consolidate_x_markers ys = ys := by
  unfold consolidate_x_markers
  rw [stableSortK_of_chain _ ys hsorted]
  cases ys with
  | nil => rfl
  | cons a rest => exact consolidateRun_sep rest a hfar

/-- Claim C5, counterexample.  The claim states the Deduplicator is
idempotent; but two groups can collapse to means within 10 px of each other,
which a second pass then merges: on the five candidates below the first pass
yields centers (0,17) and (7,12) (distance √74 < 10), and the second pass
merges them into (3,14). -/
theorem C5_counterexample :
    consolidate_x_markers (consolidate_x_markers
        [⟨(0, 12), "X (shape)"⟩, ⟨(0, 22), "X (CC)"⟩, ⟨(7, 4), "X (CC)"⟩,
         ⟨(7, 12), "X (CC)"⟩, ⟨(7, 20), "X (CC)"⟩])
      ≠ consolidate_x_markers
        [⟨(0, 12), "X (shape)"⟩, ⟨(0, 22), "X (CC)"⟩, ⟨(7, 4), "X (CC)"⟩,
         ⟨(7, 12), "X (CC)"⟩, ⟨(7, 20), "X (CC)"⟩] := by
  decide

/-- Claim C5, amended: the consolidation step is not idempotent in general —
a second application can merge consolidated candidates whose averaged
centers fall within the 10-pixel radius (see the counterexample) — but it is
idempotent whenever the consolidated output keeps adjacent candidates more
than 10 pixels apart: then re-running it merges no further candidates and
drops none. -/
theorem C5_consolidate_separated (xs : List XMarker)
    (h : (consolidate_x_markers xs).Chain'
        (fun a b => 100 < sqDist a.position b.position)) :
    consolidate_x_markers (consolidate_x_markers xs) = consolidate_x_markers xs :=
  consolidate_fix (consolidate_x_markers xs) (consolidate_sorted xs) h

/-- Claim C5, witness: on two well-separated candidates the Deduplicator is
idempotent. -/
theorem C5_consolidate_separated_witness :
    (consolidate_x_markers [⟨(0, 0), "X (CC)"⟩, ⟨(50, 0), "X (shape)"⟩]).Chain'
        (fun a b => 100 < sqDist a.position b.position) ∧
    consolidate_x_markers (consolidate_x_markers
        [⟨(0, 0), "X (CC)"⟩, ⟨(50, 0), "X (shape)"⟩])
      = consolidate_x_markers [⟨(0, 0), "X (CC)"⟩, ⟨(50, 0), "X (shape)"⟩] := by
  have he : consolidate_x_markers [⟨(0, 0), "X (CC)"⟩, ⟨(50, 0), "X (shape)"⟩]
      = [⟨(0, 0), "X (CC)"⟩, ⟨(50, 0), "X (shape)"⟩] := by decide
  have hch : (consolidate_x_markers
        [⟨(0, 0), "X (CC)"⟩, ⟨(50, 0), "X (shape)"⟩]).Chain'
      (fun a b => 100 < sqDist a.position b.position) := by
    rw [he]
    exact List.chain'_cons.mpr ⟨by decide, List.chain'_singleton _⟩
  exact ⟨hch, C5_consolidate_separated _ hch⟩

/-! ## Claim C9: determinism of the pipeline -/

/-- Claim C9: the detection-and-association pipeline is a pure function of
the input image data and the recognizer's outputs — two runs on equal inputs
produce equal output records.  (The source contains no randomness; its only
run-varying values, the `id(...)` keys of `used_x_markers`, are used solely
for membership tests within a single pass, which the index-based embedding
reproduces; all sorts are stable and deterministic.) -/
theorem C9_pipeline_deterministic (a b : PipelineIn) (h : a = b) :
    pipeline_records a = pipeline_records b :=
  congrArg pipeline_records h

/-- Claim C9, witness: a run on a concrete input equals itself. -/
theorem C9_pipeline_deterministic_witness :
    pipeline_records
        ⟨200, 200,
         [⟨(90, 95), (110, 95), (110, 105), (90, 105), "1000", mkRat 9 10⟩],
         [⟨[], 9, 1⟩],
         [⟨(150, 150), "X (shape)"⟩],
         [⟨20, 50, 50, 45, 45, 5, 5⟩], [], fun _ => false, []⟩
      = pipeline_records
        ⟨200, 200,
         [⟨(90, 95), (110, 95), (110, 105), (90, 105), "1000", mkRat 9 10⟩],
         [⟨[], 9, 1⟩],
         [⟨(150, 150), "X (shape)"⟩],
         [⟨20, 50, 50, 45, 45, 5, 5⟩], [], fun _ => false, []⟩ :=
  C9_pipeline_deterministic _ _ rfl

/-! ## Claim C10: the association step does not modify its inputs -/

theorem connectStoreStep_frame {lUpdIds hUpdIds : List ℕ} {n0 : ℕ}
    (hl : ∀ i ∈ lUpdIds, n0 ≤ i) (hh : ∀ i ∈ hUpdIds, n0 ≤ i)
    (s : StoreSt) (c : Conn) (i : ℕ) (hi : i < n0)
    (hn : n0 ≤ s.cells.length) :
    (connectStoreStep lUpdIds hUpdIds s c).cells[i]? = s.cells[i]? ∧
    n0 ≤ (connectStoreStep lUpdIds hUpdIds s c).cells.length := by
  unfold connectStoreStep
  cases hid : (if c.is_l then lUpdIds else hUpdIds)[c.ti]? with
  | none => exact ⟨rfl, hn⟩
  | some tgtId =>
    have htgt : n0 ≤ tgtId := by
      by_cases hb : c.is_l = true
      · rw [if_pos hb] at hid
        exact hl tgtId (List.getElem?_mem hid)
      · rw [if_neg hb] at hid
        exact hh tgtId (List.getElem?_mem hid)
    dsimp only
    cases hcell : s.cells[tgtId]? with
    | none => exact ⟨rfl, hn⟩
    | some tgt =>
      dsimp only
      by_cases hskip : (s.usedX.contains c.xi || tgt.assigned) = true
      · rw [if_pos hskip]
        exact ⟨rfl, hn⟩
      · rw [if_neg hskip]
        constructor
        · rw [List.getElem?_set_ne (by omega)]
          exact List.getElem?_append_left (by omega)
        · rw [List.length_set, List.length_append]
          omega

theorem foldl_connectStoreStep_frame {lUpdIds hUpdIds : List ℕ} {n0 : ℕ}
    (hl : ∀ i ∈ lUpdIds, n0 ≤ i) (hh : ∀ i ∈ hUpdIds, n0 ≤ i) (i : ℕ)
    (hi : i < n0) :
    ∀ (cs : List Conn) (s : StoreSt), n0 ≤ s.cells.length →
      (cs.foldl (connectStoreStep lUpdIds hUpdIds) s).cells[i]? = s.cells[i]? ∧
      n0 ≤ (cs.foldl (connectStoreStep lUpdIds hUpdIds) s).cells.length := by
  intro cs
  induction cs with
  | nil => intro s hn; exact ⟨rfl, hn⟩
  | cons c rest ih =>
    intro s hn
    rw [List.foldl_cons]
    have hstep := connectStoreStep_frame hl hh s c i hi hn
    have hrest := ih (connectStoreStep lUpdIds hUpdIds s c) hstep.2
    exact ⟨hrest.1.trans hstep.1, hrest.2⟩

/-- Claim C10: `connect_x_markers_to_lh` leaves every pre-existing object
(every dict handed in through `l_markers`, `h_markers`, `x_markers`)
unchanged — in the store rendering, all cells that exist before the call
hold the same record after it.  Associations, `assigned` flags and consumed
status land only on the freshly allocated copies. -/
theorem C10_connect_frame (σ : List MRec) (xIds lIds hIds : List ℕ) (i : ℕ)
    (hi : i < σ.length) :
    (connect_store σ xIds lIds hIds).1[i]? = σ[i]? := by
  unfold connect_store
  dsimp only
  rw [List.append_assoc]
  have hl : ∀ j ∈ (List.range
      ((lIds.filterMap fun k => σ[k]?).map copyForUpdate).length).map
        (fun k => σ.length + k), σ.length ≤ j := by
    intro j hj
    rcases List.mem_map.mp hj with ⟨k, -, rfl⟩
    omega
  have hh : ∀ j ∈ (List.range
      ((hIds.filterMap fun k => σ[k]?).map copyForUpdate).length).map
        (fun k => σ.length +
          ((lIds.filterMap fun k => σ[k]?).map copyForUpdate).length + k),
      σ.length ≤ j := by
    intro j hj
    rcases List.mem_map.mp hj with ⟨k, -, rfl⟩
    omega
  have hbase : σ.length ≤ (σ ++
      ((lIds.filterMap fun k => σ[k]?).map copyForUpdate ++
       (hIds.filterMap fun k => σ[k]?).map copyForUpdate)).length := by
    rw [List.length_append]
    omega
  exact (foldl_connectStoreStep_frame hl hh i hi _ _ hbase).1.trans
    (List.getElem?_append_left hi)

/-- Claim C10, witness: a store with one candidate and one L target keeps
its pre-existing cells intact through the call. -/
theorem C10_connect_frame_witness :
    (0 : ℕ) <
      ([⟨(100, 100), "X (CC)", 0, 0, (0, 0), ⟨(0,0),(0,0),(0,0),(0,0)⟩,
         ⟨(0,0),(0,0),(0,0),(0,0)⟩, false, [], false, none, none, none⟩,
        ⟨(60, 60), "L", 995, mkRat 9 10, (60, 80),
         ⟨(50, 75), (70, 75), (70, 85), (50, 85)⟩,
         ⟨(50, 50), (70, 50), (70, 70), (50, 70)⟩, false, [], false, none, none,
         none⟩] : List MRec).length ∧
    (connect_store
        [⟨(100, 100), "X (CC)", 0, 0, (0, 0), ⟨(0,0),(0,0),(0,0),(0,0)⟩,
          ⟨(0,0),(0,0),(0,0),(0,0)⟩, false, [], false, none, none, none⟩,
         ⟨(60, 60), "L", 995, mkRat 9 10, (60, 80),
          ⟨(50, 75), (70, 75), (70, 85), (50, 85)⟩,
          ⟨(50, 50), (70, 50), (70, 70), (50, 70)⟩, false, [], false, none, none,
          none⟩]
        [0] [1] []).1[0]?
      = ([⟨(100, 100), "X (CC)", 0, 0, (0, 0), ⟨(0,0),(0,0),(0,0),(0,0)⟩,
           ⟨(0,0),(0,0),(0,0),(0,0)⟩, false, [], false, none, none, none⟩,
          ⟨(60, 60), "L", 995, mkRat 9 10, (60, 80),
           ⟨(50, 75), (70, 75), (70, 85), (50, 85)⟩,
           ⟨(50, 50), (70, 50), (70, 70), (50, 70)⟩, false, [], false, none, none,
           none⟩] : List MRec)[0]? :=
  ⟨by decide,
   C10_connect_frame
     [⟨(100, 100), "X (CC)", 0, 0, (0, 0), ⟨(0,0),(0,0),(0,0),(0,0)⟩,
       ⟨(0,0),(0,0),(0,0),(0,0)⟩, false, [], false, none, none, none⟩,
      ⟨(60, 60), "L", 995, mkRat 9 10, (60, 80),
       ⟨(50, 75), (70, 75), (70, 85), (50, 85)⟩,
       ⟨(50, 50), (70, 50), (70, 70), (50, 70)⟩, false, [], false, none, none,
       none⟩]
     [0] [1] [] 0 (by decide)⟩

end WX
